import Mathlib

/-!
# Verification of `envelope/pkcs12` (`pkcs12sm.go`)

A shallow embedding of the SM2 PKCS#12-analogue container decoder from
`src/pkcs12/pkcs12sm.go`, together with theorems settling the frozen claims
about it.

Bytes are modelled as `List Nat` (each entry intended in `[0, 255]`); Go's
`big.Int.SetBytes` becomes a big-endian fold; Go functions that can call
`log.Fatal` or hit a run-time panic return an explicit `GoOutcome` so that
process aborts and panics are visible in the model.

The repository's own out-of-src packages (`envelope/sm3`, `envelope/sm4`,
`envelope/sm2`, `envelope/x509`) and the Go standard-library collaborators
(`encoding/asn1`, `encoding/base64`, `encoding/pem`, `x/crypto/pkcs12`) are
out of scope per the spec and are modelled from the spec's interface
descriptions: the hash digest, the 16-byte block-cipher primitives, the
certificate parser and the legacy PKCS#12 decoder are abstract fields of an
`Externals` structure, while CBC chaining, DER tag/length parsing, base64 and PEM
decoding are given executable spec-level models.
-/

/-- The error kinds produced along the decode pipeline.  The Go source uses
`errors.New` with string messages and opaque errors from collaborators; the
embedding names each distinct error source with a constructor. -/
inductive GoErr where
  /-- `encoding/asn1` failed to parse the top-level structure. -/
  | parseError : GoErr
  /-- `"go-pkcs12: trailing data found"` — bytes remain after the structure. -/
  | trailingData : GoErr
  /-- `"密码错误"` — wrong password (empty decrypt output, or the legacy
  decoder's incorrect-password signal). -/
  | wrongPassword : GoErr
  /-- `envelope/x509.ParseCertificate` failed. -/
  | certParseError : GoErr
  /-- The CBC cipher operation reported an error. -/
  | cbcError : GoErr
  /-- `base64.StdEncoding.DecodeString` failed. -/
  | base64Error : GoErr
  /-- The legacy `pkcs12.ToPEM` decoder failed with a non-password error. -/
  | pfxError : GoErr
  /-- `x509.ParsePKCS1PrivateKey` failed. -/
  | pkcs1Error : GoErr
  /-- `"文件格式错误"` — unsupported format hint. -/
  | unsupportedFormat : GoErr
deriving DecidableEq, Repr

/-- Possible outcomes of running a Go function that may return a value,
return an error, terminate the process via `log.Fatal`, or panic (nil
dereference / failed type assertion). -/
inductive GoOutcome (α : Type) where
  /-- Normal return of a value with a nil error. -/
  | ok : α → GoOutcome α
  /-- Normal return of a non-nil error to the caller. -/
  | err : GoErr → GoOutcome α
  /-- `log.Fatal` was reached: the process terminates. -/
  | fatal : GoErr → GoOutcome α
  /-- A run-time panic (nil pointer dereference or failed type assertion). -/
  | panicked : GoOutcome α
deriving DecidableEq, Repr

/-- `sm2.PublicKey`: a point on the SM2 curve.  The embedding keeps only the
coordinates (the curve parameters are a fixed global in the Go source and
never inspected by this file's code paths). -/
structure SM2PublicKey where
  x : Nat
  y : Nat
deriving DecidableEq, Repr

/-- `sm2.PrivateKey`: the embedded public key plus the scalar `D`
(`big.Int`, always non-negative here since it is built via `SetBytes`). -/
structure SM2PrivateKey where
  publicKey : SM2PublicKey
  d : Nat
deriving DecidableEq, Repr

/-- The dynamic type of `Certificate.PublicKey` (`interface{}` in Go): either
an SM2 public key, or some other key type (RSA/ECDSA/...), whose identity is
irrelevant to this file — only the type assertion's success matters. -/
inductive CertKey where
  | sm2 : SM2PublicKey → CertKey
  | other : CertKey
deriving DecidableEq, Repr

/-- `x509.Certificate` as used by this file: only its `PublicKey` field is
ever read. -/
structure Certificate where
  publicKey : CertKey
deriving DecidableEq, Repr

/-- Result of the legacy `pkcs12.ToPEM` decoder: PEM block byte payloads, an
incorrect-password error, or any other error. -/
inductive PfxResult where
  | ok : List (List Nat) → PfxResult
  | errIncorrectPassword : PfxResult
  | errOther : PfxResult
deriving DecidableEq, Repr

/-- Modelled from the spec: the out-of-scope collaborators, given as the
interfaces the core needs (spec §1 "OUT OF SCOPE ... specified only via the
interfaces the core needs").  `sm3Digest` is the hash primitive with a
32-byte digest; `encB`/`decB` are the raw single-block SM4 encrypt/decrypt
on 16-byte blocks; `parseCert` is the certificate parser yielding a
certificate or failing; `toPEM`/`parsePKCS1` are the legacy-container
fallback decoders. -/
structure Externals where
  /-- Digest of the SM3 hash primitive (`envelope/sm3`). -/
  sm3Digest : List Nat → List Nat
  /-- The spec fixes the digest length at 32 bytes. -/
  sm3Digest_len : ∀ m, (sm3Digest m).length = 32
  /-- Raw block encryption, `key → block → block` (`envelope/sm4`). -/
  encB : List Nat → List Nat → List Nat
  /-- Raw block decryption, `key → block → block` (`envelope/sm4`). -/
  decB : List Nat → List Nat → List Nat
  /-- A fixed-block cipher maps 16-byte blocks to 16-byte blocks. -/
  decB_len : ∀ k b, b.length = 16 → (decB k b).length = 16
  /-- `envelope/x509.ParseCertificate`. -/
  parseCert : List Nat → Option Certificate
  /-- `golang.org/x/crypto/pkcs12.ToPEM`. -/
  toPEM : List Nat → String → PfxResult
  /-- `envelope/x509.ParsePKCS1PrivateKey`; the RSA key payload is opaque. -/
  parsePKCS1 : List Nat → Option Nat

/-- Big-endian interpretation of a byte string as an unsigned integer:
Go's `big.Int.SetBytes`. -/
def beVal (l : List Nat) : Nat :=
  l.foldl (fun acc b => acc * 256 + b) 0

/-- Pointwise XOR of two byte strings, truncated to the shorter one (as in
CBC chaining where both sides are one block). -/
def xorBytes (a b : List Nat) : List Nat :=
  List.zipWith (fun x y => Nat.xor x y) a b

/-- UTF-8 encoding of one character (Go's `[]byte(string)` conversion is
UTF-8). -/
def utf8Char (c : Char) : List Nat :=
  let n := c.toNat
  if n < 128 then [n]
  else if n < 2048 then
    [192 + n / 64, 128 + n % 64]
  else if n < 65536 then
    [224 + n / 4096, 128 + n / 64 % 64, 128 + n % 64]
  else
    [240 + n / 262144, 128 + n / 4096 % 64, 128 + n / 64 % 64, 128 + n % 64]

/-- UTF-8 bytes of a Go string (`[]byte(password)`). -/
def utf8Bytes (s : String) : List Nat :=
  s.data.flatMap utf8Char

/-! ## SM3 streaming interface and the KDF (`KDF`, lines 70–77)

The Go code builds a streaming hash object, writes the secret, writes the
counter, and finalizes.  Modelled from the spec: the streaming object
accumulates bytes and `Sum` digests the accumulated buffer once ("hash the
concatenation once, and return the digest"). -/

/-- The streaming-hash context (`sm3.New()`): the bytes written so far. -/
structure Sm3Ctx where
  buf : List Nat
deriving DecidableEq, Repr

/-- `sm3.New()`. -/
def sm3New : Sm3Ctx := ⟨[]⟩

/-- `ctx.Write(bs)`: append bytes to the stream. -/
def sm3WriteCtx (ctx : Sm3Ctx) (bs : List Nat) : Sm3Ctx :=
  ⟨ctx.buf ++ bs⟩

/-- `ctx.Sum(nil)`: digest of all bytes written, hashed once. -/
def sm3SumCtx (E : Externals) (ctx : Sm3Ctx) : List Nat :=
  E.sm3Digest ctx.buf

/-- `KDF` (pkcs12sm.go lines 70–77): write the secret `z`, write the fixed
4-byte big-endian counter `00 00 00 01`, and return the digest. -/
def KDF (E : Externals) (z : List Nat) : List Nat :=
  let ct : List Nat := [0, 0, 0, 1]
  sm3SumCtx E (sm3WriteCtx (sm3WriteCtx sm3New z) ct)

/-! ## CBC mode over the block cipher (`sm4.Init` / `Sm4Cbc`)

Modelled from the spec: `envelope/sm4` is not under `src/`; the spec
describes it as a "fixed-block symmetric cipher in CBC mode, with raw
encrypt/decrypt on 16-byte blocks", without padding (spec §8: decrypting a
32-byte fixture "must return the original 32 bytes exactly").  The model
rejects inputs that are not a whole number of blocks.  `sm4.Init(iv, key)`
followed by `Sm4Cbc(data, enc)` is collapsed into one function taking `iv`
and `key` explicitly. -/

/-- CBC decryption chaining, with a fuel argument bounding the number of
blocks (structural recursion so that concrete runs reduce in the kernel;
`cbcDecBytes` below supplies enough fuel).  Each plaintext block is the raw
block decryption of the ciphertext block XORed with the previous ciphertext
block (`prev`, initially the IV). -/
def cbcDecAux (decB : List Nat → List Nat → List Nat) (key : List Nat) :
    Nat → List Nat → List Nat → List Nat
  | 0, _, _ => []
  | _ + 1, _, [] => []
  | fuel + 1, prev, x :: rest =>
    xorBytes (decB key ((x :: rest).take 16)) prev ++
      cbcDecAux decB key fuel ((x :: rest).take 16) ((x :: rest).drop 16)

/-- CBC decryption of a whole byte string, starting from the IV. -/
def cbcDecBytes (decB : List Nat → List Nat → List Nat)
    (key iv data : List Nat) : List Nat :=
  cbcDecAux decB key data.length iv data

/-- CBC encryption chaining with fuel: each ciphertext block is the raw
block encryption of the plaintext block XORed with the previous ciphertext
block. -/
def cbcEncAux (encB : List Nat → List Nat → List Nat) (key : List Nat) :
    Nat → List Nat → List Nat → List Nat
  | 0, _, _ => []
  | _ + 1, _, [] => []
  | fuel + 1, prev, x :: rest =>
    encB key (xorBytes ((x :: rest).take 16) prev) ++
      cbcEncAux encB key fuel (encB key (xorBytes ((x :: rest).take 16) prev))
        ((x :: rest).drop 16)

/-- CBC encryption of a whole byte string, starting from the IV. -/
def cbcEncBytes (encB : List Nat → List Nat → List Nat)
    (key iv data : List Nat) : List Nat :=
  cbcEncAux encB key data.length iv data

/-- `sm4.Init(iv, key)` followed by `Sm4Cbc(data, encrypt)`: CBC over the
raw block primitives; errors when the input is not a whole number of
16-byte blocks. -/
def Sm4Cbc (E : Externals) (iv key data : List Nat) (encrypt : Bool) :
    Except GoErr (List Nat) :=
  if data.length % 16 ≠ 0 then
    .error .cbcError
  else if encrypt then
    .ok (cbcEncBytes E.encB key iv data)
  else
    .ok (cbcDecBytes E.decB key iv data)

/-! ## Base64 (`encoding/base64`, standard alphabet)

Modelled from the spec: the Go standard library's `base64.StdEncoding`
decoders are out-of-scope collaborators. -/

/-- Value of one standard-alphabet base64 character (given as its ASCII
byte), or `none` for a byte outside the alphabet. -/
def b64Val (c : Nat) : Option Nat :=
  if 65 ≤ c ∧ c ≤ 90 then some (c - 65)
  else if 97 ≤ c ∧ c ≤ 122 then some (c - 97 + 26)
  else if 48 ≤ c ∧ c ≤ 57 then some (c - 48 + 52)
  else if c = 43 then some 62
  else if c = 47 then some 63
  else none

/-- Decode base64 input four characters at a time; the final quadruple may
carry one or two `=` padding characters (ASCII 61).  Fails on any byte
outside the alphabet or on a length that is not a multiple of four. -/
def b64Quads : List Nat → Option (List Nat)
  | [] => some []
  | a :: b :: c :: d :: rest =>
    match b64Val a, b64Val b with
    | some va, some vb =>
      if c = 61 ∧ d = 61 ∧ rest = [] then
        some [va * 4 + vb / 16]
      else if d = 61 ∧ rest = [] then
        match b64Val c with
        | some vc => some [va * 4 + vb / 16, vb % 16 * 16 + vc / 4]
        | none => none
      else
        match b64Val c, b64Val d, b64Quads rest with
        | some vc, some vd, some tail =>
          some ([va * 4 + vb / 16, vb % 16 * 16 + vc / 4, vc % 4 * 64 + vd] ++ tail)
        | _, _, _ => none
    | _, _ => none
  | _ => none

/-- `base64.StdEncoding.DecodeString` on a byte string (Go converts the
input `[]byte` to `string` first; byte-wise this is the identity). -/
def b64DecodeBytes (src : List Nat) : Option (List Nat) :=
  b64Quads src

/-- `base64.StdEncoding.Decode(dst, src)` where `dst` was allocated with
`make([]byte, n)`: the decoded bytes land at the front of the buffer and the
rest keeps its zero fill.  (In the source this buffer is discarded
unconditionally on the next line, so only its existence matters.) -/
def b64DecodeInto (n : Nat) (src : List Nat) : List Nat :=
  match b64DecodeBytes src with
  | some d => (d ++ List.replicate n 0).take n
  | none => List.replicate n 0

/-! ## `DecryptSm2Key` (pkcs12sm.go lines 82–106) -/

/-- `DecryptSm2Key(password, encryptedData)`, lines 82–106.  Mirrors the Go
control flow: inside the `[32, 64]` length window the code allocates
`encoding`, conditionally base64-decodes into it when the length is neither
32 nor 48, then unconditionally overwrites `encoding` with `encryptedData`
(line 88) — so `encoding0` below is dead, exactly as in the source.  A CBC
error hits `log.Fatal` (modelled as `.fatal`); outside the window the
function returns `nil` (modelled as `.ok []`, since the caller only ever
checks `len`). -/
def DecryptSm2Key (E : Externals) (password : String) (encryptedData : List Nat) :
    GoOutcome (List Nat) :=
  if 32 ≤ encryptedData.length ∧ encryptedData.length ≤ 64 then
    let encoding0 : List Nat :=
      if encryptedData.length ≠ 32 ∧ encryptedData.length ≠ 48 then
        b64DecodeInto encryptedData.length encryptedData
      else
        List.replicate encryptedData.length 0
    let encoding := encryptedData
    let h := KDF E (utf8Bytes password)
    let iv := h.take 16
    let key := h.drop 16
    match Sm4Cbc E iv key encoding false with
    | .error e => .fatal e
    | .ok out => .ok out
  else
    .ok []

/-- The decryptor as claim C4 states it (and spec §4.3's "otherwise the
implementation must attempt to base64-decode the blob first"): for in-window
lengths other than 32 and 48 the *decoded* bytes are fed to CBC.  This
definition follows the claim's words, to be compared against
`DecryptSm2Key`, which follows the source. -/
def DecryptSm2KeyClaimed (E : Externals) (password : String) (encryptedData : List Nat) :
    GoOutcome (List Nat) :=
  if 32 ≤ encryptedData.length ∧ encryptedData.length ≤ 64 then
    let encoding :=
      if encryptedData.length ≠ 32 ∧ encryptedData.length ≠ 48 then
        (b64DecodeBytes encryptedData).getD encryptedData
      else
        encryptedData
    let h := KDF E (utf8Bytes password)
    let iv := h.take 16
    let key := h.drop 16
    match Sm4Cbc E iv key encoding false with
    | .error e => .fatal e
    | .ok out => .ok out
  else
    .ok []

/-- The cipher stage applied to a given raw byte string with the IV and key
derived from the password — the body of `DecryptSm2Key` after line 88.
Used to state which bytes actually reach the CBC decryption. -/
def cbcStage (E : Externals) (password : String) (raw : List Nat) :
    GoOutcome (List Nat) :=
  let h := KDF E (utf8Bytes password)
  match Sm4Cbc E (h.take 16) (h.drop 16) raw false with
  | .error e => .fatal e
  | .ok out => .ok out

/-! ## DER tag/length parsing (`encoding/asn1.Unmarshal` on `smPdu`)

Modelled from the spec: the "general binary-encapsulation parser/encoder
(tag-length-value structured records)" is an out-of-scope collaborator
(Go's `encoding/asn1`).  The model parses definite-length DER elements with
single-byte tags (multi-byte tag numbers, where the low five tag bits are
all set, are rejected), enforcing Go's checks: no indefinite lengths, no
superfluous leading zeros in long-form lengths, long form only for lengths
that need it, minimally-encoded integers of at most eight bytes, and
object identifiers whose last content byte has its continuation bit
clear. -/

/-- Parse a DER length: short form (`< 0x80`) or long form (`0x80 + n`
length bytes, big-endian).  Returns the length and the remaining input. -/
def parseLen : List Nat → Option (Nat × List Nat)
  | [] => none
  | b :: rest =>
    if b < 128 then some (b, rest)
    else
      let n := b - 128
      if n = 0 then none
      else if n ≤ rest.length then
        let lb := rest.take n
        if lb.headI = 0 then none
        else
          let L := beVal lb
          if L < 128 then none else some (L, rest.drop n)
      else none

/-- Parse one DER element: tag byte, length, content.  Returns the tag, the
content octets, and the remaining input after the element.  Rejects
multi-byte tag numbers and truncated contents. -/
def parseElem : List Nat → Option (Nat × List Nat × List Nat)
  | [] => none
  | t :: rest =>
    if t % 32 = 31 then none
    else
      match parseLen rest with
      | none => none
      | some (L, rest2) =>
        if L ≤ rest2.length then some (t, rest2.take L, rest2.drop L)
        else none

/-- Go's `checkInteger` plus `parseInt64`: content must be non-empty, with
no redundant leading sign byte, and at most eight bytes. -/
def intOk (l : List Nat) : Bool :=
  match l with
  | [] => false
  | [_] => l.length ≤ 8
  | b0 :: b1 :: _ =>
    if b0 = 0 ∧ b1 < 128 then false
    else if b0 = 255 ∧ 128 ≤ b1 then false
    else l.length ≤ 8

/-- Two's-complement big-endian value of an INTEGER's content octets. -/
def intVal (l : List Nat) : Int :=
  if 128 ≤ l.headI then (beVal l : Int) - 2 ^ (8 * l.length) else (beVal l : Int)

/-- Go's `parseObjectIdentifier` validity on the content octets: non-empty
and the final base-128 group terminated (last byte below 0x80). -/
def oidOk (l : List Nat) : Bool :=
  match l.getLast? with
  | none => false
  | some b => b < 128

/-- Parse an INTEGER element (tag `0x02`) at the front of the input. -/
def parseIntElem (l : List Nat) : Option (Int × List Nat) :=
  match parseElem l with
  | none => none
  | some (t, content, rest) =>
    if t = 2 ∧ intOk content then some (intVal content, rest) else none

/-- Parse an OBJECT IDENTIFIER element (tag `0x06`); the model keeps the raw
content octets (the decoded arcs are never used by this file). -/
def parseOidElem (l : List Nat) : Option (List Nat × List Nat) :=
  match parseElem l with
  | none => none
  | some (t, content, rest) =>
    if t = 6 ∧ oidOk content then some (content, rest) else none

/-- `privateKeyContent` (pkcs12sm.go lines 25–29): two algorithm OIDs and an
opaque `asn1.RawValue`.  The model keeps each OID's content octets and, for
the raw value, its content octets (`Content.Bytes`, the only projection the
source reads). -/
structure PrivateKeyContent where
  oid1 : List Nat
  oid2 : List Nat
  content : List Nat
deriving DecidableEq, Repr

/-- `publicKeyContent` (pkcs12sm.go lines 31–34): one algorithm OID and an
opaque `asn1.RawValue` holding the DER certificate. -/
structure PublicKeyContent where
  oid : List Nat
  content : List Nat
deriving DecidableEq, Repr

/-- `smPdu` (pkcs12sm.go lines 19–23): version, private-key record,
public-key record. -/
structure SmPdu where
  version : Int
  privContent : PrivateKeyContent
  pubContent : PublicKeyContent
deriving DecidableEq, Repr

/-- Parse the content octets of the `privateKeyContent` SEQUENCE: OID, OID,
any element (RawValue); the sequence must be fully consumed. -/
def parsePrivContent (l : List Nat) : Option PrivateKeyContent :=
  match parseOidElem l with
  | none => none
  | some (o1, r1) =>
    match parseOidElem r1 with
    | none => none
    | some (o2, r2) =>
      match parseElem r2 with
      | none => none
      | some (_, c, r3) =>
        if r3 = [] then some ⟨o1, o2, c⟩ else none

/-- Parse the content octets of the `publicKeyContent` SEQUENCE: OID, any
element (RawValue); the sequence must be fully consumed. -/
def parsePubContent (l : List Nat) : Option PublicKeyContent :=
  match parseOidElem l with
  | none => none
  | some (o, r1) =>
    match parseElem r1 with
    | none => none
    | some (_, c, r2) =>
      if r2 = [] then some ⟨o, c⟩ else none

/-- Parse the content octets of the outer `smPdu` SEQUENCE: an INTEGER
(`Version`), the `privateKeyContent` SEQUENCE and the `publicKeyContent`
SEQUENCE, with the content fully consumed. -/
def parsePduContent (body : List Nat) : Option SmPdu :=
  match parseIntElem body with
  | none => none
  | some (v, b1) =>
    match parseElem b1 with
    | none => none
    | some (t1, c1, b2) =>
      if t1 = 48 then
        match parsePrivContent c1 with
        | none => none
        | some priv =>
          match parseElem b2 with
          | none => none
          | some (t2, c2, b3) =>
            if t2 = 48 ∧ b3 = [] then
              match parsePubContent c2 with
              | none => none
              | some pub => some ⟨v, priv, pub⟩
            else none
      else none

/-- `asn1.Unmarshal(smData, new(smPdu))`: parse one outer SEQUENCE
(tag `0x30`) and its content, and return the parsed value together with the
trailing bytes after the outer element. -/
def parseSmPdu (smData : List Nat) : Option (SmPdu × List Nat) :=
  match parseElem smData with
  | none => none
  | some (t, body, rest) =>
    if t = 48 then
      match parsePduContent body with
      | none => none
      | some pdu => some (pdu, rest)
    else none

/-! ## `DecodeSm2` (pkcs12sm.go lines 36–64) -/

/-- `DecodeSm2(smData, password)`, lines 36–64.  Unmarshal; reject trailing
bytes; decrypt the private blob and treat an empty result as a wrong
password; parse the certificate, where a parse failure hits `log.Fatal`
(the `return` after it on line 54 is unreachable); assert the certificate's
public key to `*sm2.PublicKey`, a failed assertion being a run-time panic;
finally pair the certificate's public key with the decrypted scalar. -/
def DecodeSm2 (E : Externals) (smData : List Nat) (password : String) :
    GoOutcome (SM2PrivateKey × Certificate) :=
  match parseSmPdu smData with
  | none => .err .parseError
  | some (sm, trailing) =>
    if trailing.length ≠ 0 then .err .trailingData
    else
      match DecryptSm2Key E password sm.privContent.content with
      | .ok dBytes =>
        if dBytes.length = 0 then .err .wrongPassword
        else
          match E.parseCert sm.pubContent.content with
          | none => .fatal .certParseError
          | some cer =>
            match cer.publicKey with
            | .sm2 pub => .ok (⟨pub, beVal dBytes⟩, cer)
            | .other => .panicked
      | .err e => .err e
      | .fatal e => .fatal e
      | .panicked => .panicked

/-! ## Format dispatcher (`GetPrivateKeyFromBytes`, lines 126–152) -/

/-- The dynamically-typed (`interface{}`) private-key return of the
dispatcher: an SM2 key from the native path or a PKCS#1 RSA key from the
legacy path. -/
inductive AnyKey where
  | sm2 : SM2PrivateKey → AnyKey
  | pkcs1 : Nat → AnyKey
deriving DecidableEq, Repr

/-- `GetPrivateKeyFromBytes(data, ext, password)`, lines 126–152.  For
`".sm2"`: base64-decode the data and run `DecodeSm2`.  For `".pfx"`:
`pkcs12.ToPEM`, mapping its incorrect-password error to `"密码错误"`, then
`ParsePKCS1PrivateKey` on `blocks[0]` (indexing an empty slice panics).
Anything else: `"文件格式错误"`. -/
def GetPrivateKeyFromBytes (E : Externals) (data : List Nat) (ext password : String) :
    GoOutcome AnyKey :=
  if ext = ".sm2" then
    match b64DecodeBytes data with
    | none => .err .base64Error
    | some b =>
      match DecodeSm2 E b password with
      | .ok (priv, _) => .ok (.sm2 priv)
      | .err e => .err e
      | .fatal e => .fatal e
      | .panicked => .panicked
  else if ext = ".pfx" then
    match E.toPEM data password with
    | .errIncorrectPassword => .err .wrongPassword
    | .errOther => .err .pfxError
    | .ok blocks =>
      match blocks with
      | [] => .panicked
      | b0 :: _ =>
        match E.parsePKCS1 b0 with
        | none => .err .pkcs1Error
        | some k => .ok (.pkcs1 k)
  else
    .err .unsupportedFormat

/-! ## PEM decoding and `GetPublicKeyFromSM2File` (lines 155–171) -/

/-- Does `pat` occur as a contiguous run inside `l`? -/
def containsSeq (pat : List Nat) : List Nat → Bool
  | [] => pat.isPrefixOf []
  | x :: rest => pat.isPrefixOf (x :: rest) || containsSeq pat rest

/-- The ASCII bytes of the PEM begin marker, `"-----BEGIN "`. -/
def pemBeginMarker : List Nat :=
  [45, 45, 45, 45, 45, 66, 69, 71, 73, 78, 32]

/-- Modelled from the spec: `encoding/pem.Decode` (Go standard library, out
of scope).  Returns `none` — a nil `*pem.Block` — when the input holds no
`"-----BEGIN "` marker; otherwise some block whose payload the model leaves
as the bytes following the marker (the claims only exercise the `none`
case). -/
def pemDecode (data : List Nat) : Option (List Nat) :=
  if containsSeq pemBeginMarker data then some (data.drop 11) else none

/-- `GetPublicKeyFromSM2File` (lines 155–171), as a function of the bytes
read from the file.  `block, _ := pem.Decode(cerData)` is not nil-checked:
when the input is not PEM, `block.Bytes` dereferences a nil pointer and the
call panics.  A certificate parse error, by contrast, is returned; a
non-SM2 public key fails the type assertion and panics. -/
def GetPublicKeyFromSM2File (E : Externals) (cerData : List Nat) :
    GoOutcome SM2PublicKey :=
  match pemDecode cerData with
  | none => .panicked
  | some blockBytes =>
    match E.parseCert blockBytes with
    | none => .err .certParseError
    | some cer =>
      match cer.publicKey with
      | .sm2 pub => .ok pub
      | .other => .panicked

/-! ## A concrete instantiation of the externals, for witnesses

`testExternals` is not claimed to implement SM3/SM4/X.509: it is one
admissible inhabitant of the spec's collaborator interfaces, used to
evaluate the theorems on concrete inputs. -/

/-- A concrete `Externals` inhabitant: the constant-zero 32-byte digest, the
identity block cipher, and a certificate parser that recognizes content
starting with byte `0x30` as an SM2-keyed certificate, content starting
with `0x31` as a certificate with a non-SM2 key, and fails otherwise. -/
def testExternals : Externals where
  sm3Digest := fun _ => List.replicate 32 0
  sm3Digest_len := fun _ => List.length_replicate 32 0
  encB := fun _ b => b
  decB := fun _ b => b
  decB_len := fun _ _ h => h
  parseCert := fun bs =>
    match bs with
    | 48 :: _ => some ⟨.sm2 ⟨1, 2⟩⟩
    | 49 :: _ => some ⟨.other⟩
    | _ => none
  toPEM := fun _ _ => .errOther
  parsePKCS1 := fun _ => none

/-! ## Concrete fixtures

A syntactically valid container (outer SEQUENCE of an INTEGER version `1`,
a private record whose RawValue content is a 32-zero-byte blob, and a
public record whose RawValue content is the single byte `certByte`). -/

/-- The encrypted private blob of the fixture: 32 zero bytes. -/
def fixturePrivBlob : List Nat := List.replicate 32 0

/-- A well-formed container whose certificate blob is the one byte
`certByte` (`0x30` parses to an SM2-keyed certificate under
`testExternals`, `0x31` to a non-SM2-keyed one, anything else fails). -/
def fixtureContainer (certByte : Nat) : List Nat :=
  [48, 53, 2, 1, 1,
   48, 40, 6, 1, 42, 6, 1, 43, 4, 32] ++ fixturePrivBlob ++
  [48, 6, 6, 1, 42, 4, 1, certByte]

/-- The parse of `fixtureContainer c`: version 1, OIDs `[42]`/`[43]`, the
32-zero private blob, OID `[42]` and the certificate byte. -/
def fixturePdu (certByte : Nat) : SmPdu :=
  ⟨1, ⟨[42], [43], fixturePrivBlob⟩, ⟨[42], [certByte]⟩⟩

/-! ## Helper lemmas -/

/-- A successful `parseLen` is insensitive to extra bytes appended after
the input: the length parsed and the bytes consumed are determined by the
length header alone. -/
theorem parseLen_append {xs ys r : List Nat} {L : Nat}
    (h : parseLen xs = some (L, r)) :
    parseLen (xs ++ ys) = some (L, r ++ ys) := by
  match xs with
  | [] => simp [parseLen] at h
  | b :: rest =>
    simp only [List.cons_append]
    unfold parseLen at h ⊢
    by_cases hb : b < 128
    · simp only [if_pos hb, Option.some.injEq, Prod.mk.injEq] at h ⊢
      exact ⟨h.1, by rw [h.2]⟩
    · simp only [if_neg hb] at h ⊢
      by_cases hn : b - 128 = 0
      · simp [hn] at h
      · simp only [if_neg hn] at h ⊢
        by_cases hle : b - 128 ≤ rest.length
        · have hle' : b - 128 ≤ (rest ++ ys).length := by
            simp only [List.length_append]; omega
          simp only [if_pos hle, if_pos hle',
            List.take_append_of_le_length hle,
            List.drop_append_of_le_length hle] at h ⊢
          by_cases hz : (rest.take (b - 128)).headI = 0
          · simp [hz] at h
          · simp only [if_neg hz] at h ⊢
            by_cases hL : beVal (rest.take (b - 128)) < 128
            · simp [hL] at h
            · simp only [if_neg hL, Option.some.injEq, Prod.mk.injEq] at h ⊢
              exact ⟨h.1, by rw [h.2]⟩
        · simp [hle] at h

/-- A successful `parseElem` is insensitive to appended bytes: the element
consumed is determined by its tag and length header. -/
theorem parseElem_append {xs ys c r : List Nat} {t : Nat}
    (h : parseElem xs = some (t, c, r)) :
    parseElem (xs ++ ys) = some (t, c, r ++ ys) := by
  match xs with
  | [] => simp [parseElem] at h
  | b :: rest =>
    simp only [List.cons_append]
    unfold parseElem at h ⊢
    by_cases htag : b % 32 = 31
    · simp [htag] at h
    · simp only [if_neg htag] at h ⊢
      cases hpl : parseLen rest with
      | none => rw [hpl] at h; simp at h
      | some v =>
        obtain ⟨L, rest2⟩ := v
        rw [hpl] at h
        rw [parseLen_append hpl]
        by_cases hle : L ≤ rest2.length
        · have hle' : L ≤ (rest2 ++ ys).length := by
            simp only [List.length_append]; omega
          simp only [if_pos hle, if_pos hle',
            List.take_append_of_le_length hle,
            List.drop_append_of_le_length hle,
            Option.some.injEq, Prod.mk.injEq] at h ⊢
          exact ⟨h.1, h.2.1, by rw [h.2.2]⟩
        · simp [hle] at h

/-- A successful `parseSmPdu` is insensitive to appended bytes: the value
parsed is unchanged and the appended bytes join the trailing remainder. -/
theorem parseSmPdu_append {xs ys r : List Nat} {p : SmPdu}
    (h : parseSmPdu xs = some (p, r)) :
    parseSmPdu (xs ++ ys) = some (p, r ++ ys) := by
  unfold parseSmPdu at h ⊢
  cases he : parseElem xs with
  | none => rw [he] at h; simp at h
  | some v =>
    obtain ⟨t, body, rest⟩ := v
    rw [he] at h
    rw [parseElem_append he]
    by_cases ht : t = 48
    · simp only [if_pos ht] at h ⊢
      cases hb : parsePduContent body with
      | none => simp_all
      | some pdu =>
        simp only [hb, Option.some.injEq, Prod.mk.injEq] at h ⊢
        exact ⟨h.1, by rw [h.2]⟩
    · simp [ht] at h

/-- With a proper 16-byte block primitive, CBC decryption preserves the
byte length of a whole number of blocks. -/
theorem cbcDecAux_length (decB : List Nat → List Nat → List Nat)
    (hdec : ∀ k b, b.length = 16 → (decB k b).length = 16) (key : List Nat) :
    ∀ fuel l prev, l.length ≤ fuel → prev.length = 16 → l.length % 16 = 0 →
      (cbcDecAux decB key fuel prev l).length = l.length := by
  intro fuel
  induction fuel with
  | zero =>
    intro l prev hle _ _
    have hnil : l = [] := List.length_eq_zero.mp (Nat.le_zero.mp hle)
    subst hnil
    simp [cbcDecAux]
  | succ n ih =>
    intro l prev hle hprev hmod
    match l with
    | [] => simp [cbcDecAux]
    | x :: rest =>
      have hlen1 : (x :: rest).length = rest.length + 1 := rfl
      have h16 : 16 ≤ (x :: rest).length := by omega
      have htake : ((x :: rest).take 16).length = 16 := by
        simp only [List.length_take]; omega
      have hxor : (xorBytes (decB key ((x :: rest).take 16)) prev).length = 16 := by
        simp only [xorBytes, List.length_zipWith, hdec _ _ htake, hprev]
        omega
      have hdrop : ((x :: rest).drop 16).length = (x :: rest).length - 16 := by
        simp only [List.length_drop]
      rw [cbcDecAux, List.length_append, hxor,
        ih ((x :: rest).drop 16) ((x :: rest).take 16)
          (by rw [hdrop]; omega) htake (by rw [hdrop]; omega), hdrop]
      omega

/-- `DecryptSm2Key` only ever returns bytes normally or dies in
`log.Fatal` on a cipher error: no branch returns a Go error value and no
branch panics. -/
theorem DecryptSm2Key_shape (E : Externals) (pw : String) (d : List Nat) :
    (∃ out, DecryptSm2Key E pw d = .ok out) ∨
      DecryptSm2Key E pw d = .fatal .cbcError := by
  unfold DecryptSm2Key
  by_cases h : 32 ≤ d.length ∧ d.length ≤ 64
  · simp only [if_pos h]
    unfold Sm4Cbc
    by_cases hm : d.length % 16 = 0
    · simp [hm]
    · simp [hm]
  · simp [if_neg h]

/-! ## Claim theorems -/

/-- C1: `KDF z` is the SM3 digest of `z` concatenated with the fixed 4-byte
big-endian counter `00 00 00 01`, hashed exactly once, and the result is
always 32 bytes.  `KDF` is a total function of its input, so it never
fails and two calls on the same input are byte-identical. -/
theorem KDF_single_hash_with_counter (E : Externals) (z : List Nat) :
    KDF E z = E.sm3Digest (z ++ [0, 0, 0, 1]) ∧ (KDF E z).length = 32 := by
  constructor
  · simp [KDF, sm3SumCtx, sm3WriteCtx, sm3New]
  · exact E.sm3Digest_len _

/-- C2: for every password and every in-range blob, `DecryptSm2Key` derives
`h = KDF(utf8(password))` — 32 bytes — uses `h[:16]` (16 bytes) as the CBC
initialization vector and `h[16:]` (the remaining 16 bytes of the digest)
as the cipher key, and decrypts the blob with the block cipher in CBC
decrypting direction under that IV and key (`cbcStage`). -/
theorem DecryptSm2Key_kdf_iv_key (E : Externals) (pw : String) (data : List Nat)
    (h1 : 32 ≤ data.length) (h2 : data.length ≤ 64) :
    (KDF E (utf8Bytes pw)).length = 32 ∧
    ((KDF E (utf8Bytes pw)).take 16).length = 16 ∧
    ((KDF E (utf8Bytes pw)).drop 16).length = 16 ∧
    (KDF E (utf8Bytes pw)).take 16 ++ (KDF E (utf8Bytes pw)).drop 16 =
      KDF E (utf8Bytes pw) ∧
    DecryptSm2Key E pw data = cbcStage E pw data := by
  have hlen : (KDF E (utf8Bytes pw)).length = 32 := E.sm3Digest_len _
  refine ⟨hlen, ?_, ?_, List.take_append_drop 16 _, ?_⟩
  · simp [List.length_take, hlen]
  · simp [List.length_drop, hlen]
  · simp [DecryptSm2Key, cbcStage, h1, h2]

/-- C2, witness: the derivation equation evaluated on the spec §8 scenario
password `"test123"` and a 32-byte blob. -/
theorem DecryptSm2Key_kdf_iv_key_witness :
    DecryptSm2Key testExternals "test123" (List.replicate 32 1) =
      cbcStage testExternals "test123" (List.replicate 32 1) :=
  (DecryptSm2Key_kdf_iv_key testExternals "test123" (List.replicate 32 1)
    (by decide) (by decide)).2.2.2.2

/-- C3: a blob whose length is outside `[32, 64]` yields the empty result
`.ok []` (Go returns `nil`) — never an error, a `log.Fatal`, or a panic —
while blobs of length exactly 32 or exactly 64 are inside the accepted
window: they reach the cipher and decrypt to bytes of their own length. -/
theorem DecryptSm2Key_length_window (E : Externals) (pw : String) (data : List Nat) :
    (data.length < 32 ∨ 64 < data.length → DecryptSm2Key E pw data = .ok []) ∧
    (data.length = 32 ∨ data.length = 64 →
      ∃ out, DecryptSm2Key E pw data = .ok out ∧ out.length = data.length) := by
  constructor
  · intro h
    have hout : ¬(32 ≤ data.length ∧ data.length ≤ 64) := by omega
    simp [DecryptSm2Key, hout]
  · intro h
    have hin : 32 ≤ data.length ∧ data.length ≤ 64 := by omega
    have hmod : data.length % 16 = 0 := by omega
    have hlen : (KDF E (utf8Bytes pw)).length = 32 := E.sm3Digest_len _
    have hiv : ((KDF E (utf8Bytes pw)).take 16).length = 16 := by
      simp [List.length_take, hlen]
    refine ⟨cbcDecBytes E.decB ((KDF E (utf8Bytes pw)).drop 16)
      ((KDF E (utf8Bytes pw)).take 16) data, ?_, ?_⟩
    · simp [DecryptSm2Key, hin, Sm4Cbc, hmod, cbcDecBytes]
    · simpa [cbcDecBytes] using
        cbcDecAux_length E.decB E.decB_len ((KDF E (utf8Bytes pw)).drop 16)
          data.length data ((KDF E (utf8Bytes pw)).take 16) le_rfl hiv hmod

/-- C3, witness: a 65-byte blob is rejected with the empty result; a
64-byte blob is accepted and decrypts to 64 bytes. -/
theorem DecryptSm2Key_length_window_witness :
    DecryptSm2Key testExternals "" (List.replicate 65 0) = .ok [] ∧
    ∃ out, DecryptSm2Key testExternals "" (List.replicate 64 7) = .ok out ∧
      out.length = (List.replicate 64 7 : List Nat).length :=
  ⟨(DecryptSm2Key_length_window testExternals "" (List.replicate 65 0)).1
      (by decide),
   (DecryptSm2Key_length_window testExternals "" (List.replicate 64 7)).2
      (by decide)⟩

/-- C4, counterexample: the 64-byte blob `"A"`×64 (ASCII 65) has length in
`[32, 64]` and neither 32 nor 48, and base64-decodes to 48 zero bytes.
The claim says those decoded bytes are fed to the CBC decryption
(`DecryptSm2KeyClaimed`); the code feeds the original 64 bytes
(`DecryptSm2Key`), and the two outcomes differ. -/
theorem DecryptSm2Key_base64_counterexample :
    (List.replicate 64 65 : List Nat).length = 64 ∧
    b64DecodeBytes (List.replicate 64 65) = some (List.replicate 48 0) ∧
    DecryptSm2Key testExternals "" (List.replicate 64 65) ≠
      DecryptSm2KeyClaimed testExternals "" (List.replicate 64 65) :=
  ⟨by decide, by decide, by decide⟩

/-- C4 (amended): for every in-range blob — including the lengths other
than 32 and 48 for which line 86 base64-decodes into a scratch buffer —
line 88 overwrites that buffer with the original bytes, so the original
blob (never its base64 decoding) is what reaches the CBC decryption: the
base64 branch is dead code. -/
theorem DecryptSm2Key_base64_branch_dead (E : Externals) (pw : String)
    (data : List Nat) (h1 : 32 ≤ data.length) (h2 : data.length ≤ 64)
    (_h3 : data.length ≠ 32) (_h4 : data.length ≠ 48) :
    DecryptSm2Key E pw data = cbcStage E pw data := by
  simp [DecryptSm2Key, cbcStage, h1, h2]

/-- C4, witness: the amended statement evaluated on the 64-byte blob of
the counterexample. -/
theorem DecryptSm2Key_base64_branch_dead_witness :
    DecryptSm2Key testExternals "" (List.replicate 64 65) =
      cbcStage testExternals "" (List.replicate 64 65) :=
  DecryptSm2Key_base64_branch_dead testExternals "" (List.replicate 64 65)
    (by decide) (by decide) (by decide) (by decide)
/-- The parsing stage of `DecodeSm2` failed with a format error: either the
ASN.1 unmarshal error or the trailing-data error. -/
def isFormatError (r : GoOutcome (SM2PrivateKey × Certificate)) : Prop :=
  r = .err .parseError ∨ r = .err .trailingData

/-- C5: `DecodeSm2`'s parsing stage fails with a format error exactly when
the top-level structure cannot be parsed under the tag/length grammar or
when bytes remain after the structure is fully consumed; in particular,
appending one extra byte to an otherwise valid container yields the
trailing-data format error rather than success. -/
theorem DecodeSm2_format_error_iff (E : Externals) (data : List Nat) (pw : String) :
    (isFormatError (DecodeSm2 E data pw) ↔
      parseSmPdu data = none ∨
        ∃ p r, parseSmPdu data = some (p, r) ∧ r ≠ []) ∧
    (∀ p, parseSmPdu data = some (p, []) →
      ∀ b, DecodeSm2 E (data ++ [b]) pw = .err .trailingData) := by
  constructor
  · cases hp : parseSmPdu data with
    | none => simp [DecodeSm2, hp, isFormatError]
    | some v =>
      obtain ⟨p, r⟩ := v
      by_cases hr : r = []
      · subst hr
        have hrhs : ¬((some (p, ([] : List Nat)) : Option (SmPdu × List Nat)) = none ∨
            ∃ p' r', (some (p, ([] : List Nat)) : Option (SmPdu × List Nat)) =
              some (p', r') ∧ r' ≠ []) := by
          simp
        have hlhs : ¬ isFormatError (DecodeSm2 E data pw) := by
          rcases DecryptSm2Key_shape E pw p.privContent.content with ⟨out, hout⟩ | hout
          · by_cases hz : out.length = 0
            · simp [DecodeSm2, hp, hout, hz, isFormatError]
            · cases hc : E.parseCert p.pubContent.content with
              | none => simp [DecodeSm2, hp, hout, hz, hc, isFormatError]
              | some cer =>
                cases hk : cer.publicKey with
                | sm2 pub => simp [DecodeSm2, hp, hout, hz, hc, hk, isFormatError]
                | other => simp [DecodeSm2, hp, hout, hz, hc, hk, isFormatError]
          · simp [DecodeSm2, hp, hout, isFormatError]
        exact iff_of_false hlhs hrhs
      · constructor
        · intro _
          exact Or.inr ⟨p, r, rfl, hr⟩
        · intro _
          have hlen : r.length ≠ 0 := fun hc => hr (List.length_eq_zero.mp hc)
          exact Or.inr (by simp [DecodeSm2, hp, hlen])
  · intro p hp b
    have hap := @parseSmPdu_append data [b] [] p hp
    simp only [List.nil_append] at hap
    simp [DecodeSm2, hap]

/-- C5, witness: the fixture container parses cleanly, and appending one
extra byte to it makes `DecodeSm2` return the trailing-data format error. -/
theorem DecodeSm2_format_error_iff_witness :
    DecodeSm2 testExternals (fixtureContainer 48 ++ [0]) "" =
      .err .trailingData :=
  (DecodeSm2_format_error_iff testExternals (fixtureContainer 48) "").2
    (fixturePdu 48) (by decide) 0

/-- C6 (the code evaluated at the failing inputs): a well-formed container
whose certificate bytes do not parse drives `DecodeSm2` into `log.Fatal`
(line 53 — the `return nil, nil, err` after it is unreachable), and an
in-range blob that is not a whole number of cipher blocks drives
`DecryptSm2Key` into `log.Fatal` (line 98): these failures terminate the
process instead of being returned to the caller as error results. -/
theorem DecodeSm2_terminates_process_on_failure :
    DecodeSm2 testExternals (fixtureContainer 0) "" = .fatal .certParseError ∧
    DecryptSm2Key testExternals "" (List.replicate 33 0) = .fatal .cbcError :=
  ⟨by decide, by decide⟩

/-- C7 (the code evaluated at the failing input): a well-formed container
whose certificate parses but embeds a public key that is not of the SM2
curve-point type makes `DecodeSm2` fail the `*sm2.PublicKey` type
assertion on line 58 — a run-time panic, not an error result.  (The
unparseable-certificate half of the claim instead terminates the process,
see the previous theorem.) -/
theorem DecodeSm2_panics_on_non_sm2_key :
    DecodeSm2 testExternals (fixtureContainer 49) "" = .panicked := by decide

/-- C8: `DecodeSm2` succeeds with `(priv, cer)` exactly when the container
parses with no trailing bytes, the blob decrypts to non-empty bytes
`dBytes`, the certificate parses to `cer` and its embedded key is an SM2
key; and then `priv`'s embedded public key is exactly the certificate's
parsed key (not derived from the scalar) and `priv.d` is the big-endian
unsigned value of `dBytes`.  The listed conditions are exhaustive: nothing
relates `dBytes` to the public point, i.e. no scalar-times-generator
consistency check is performed. -/
theorem DecodeSm2_success_iff (E : Externals) (data : List Nat) (pw : String)
    (priv : SM2PrivateKey) (cer : Certificate) :
    DecodeSm2 E data pw = .ok (priv, cer) ↔
      ∃ p dBytes,
        parseSmPdu data = some (p, []) ∧
        DecryptSm2Key E pw p.privContent.content = .ok dBytes ∧
        dBytes ≠ [] ∧
        E.parseCert p.pubContent.content = some cer ∧
        cer.publicKey = .sm2 priv.publicKey ∧
        priv.d = beVal dBytes := by
  constructor
  · intro h
    unfold DecodeSm2 at h
    split at h
    next => simp at h
    next sm trailing hp =>
      split at h
      next => simp at h
      next htr =>
        have htrnil : trailing = [] := by
          simpa [List.length_eq_zero] using htr
        split at h
        next dBytes hd =>
          split at h
          next => simp at h
          next hz =>
            split at h
            next => simp at h
            next cer' hc =>
              split at h
              next pub hk =>
                simp only [GoOutcome.ok.injEq, Prod.mk.injEq] at h
                obtain ⟨hpriv, hcer⟩ := h
                subst hcer
                refine ⟨sm, dBytes, by rw [hp, htrnil], hd, ?_, hc, ?_, ?_⟩
                · exact fun hnil => hz (by simp [hnil])
                · rw [hk, ← hpriv]
                · rw [← hpriv]
              next => simp at h
        next e hd => simp at h
        next e hd => simp at h
        next hd => simp at h
  · rintro ⟨p, dBytes, hp, hd, hnz, hc, hk, hdv⟩
    have hz : dBytes.length ≠ 0 := fun hc0 => hnz (List.length_eq_zero.mp hc0)
    obtain ⟨pub, d⟩ := priv
    simp only at hk hdv
    simp [DecodeSm2, hp, hd, hz, hc, hk, hdv]

/-- C8, witness: the fixture container decodes successfully; the returned
private key carries exactly the certificate's SM2 public key `(1, 2)` and
the scalar `beVal` of the 32 decrypted zero bytes, i.e. `0`. -/
theorem DecodeSm2_success_iff_witness :
    DecodeSm2 testExternals (fixtureContainer 48) "" =
      .ok (⟨⟨1, 2⟩, 0⟩, ⟨.sm2 ⟨1, 2⟩⟩) :=
  (DecodeSm2_success_iff testExternals (fixtureContainer 48) "" ⟨⟨1, 2⟩, 0⟩
      ⟨.sm2 ⟨1, 2⟩⟩).mpr
    ⟨fixturePdu 48, List.replicate 32 0, by decide, by decide, by decide,
      by decide, by decide, by decide⟩

/-- C9: a format hint other than `".sm2"` and `".pfx"` yields the
unsupported-format error (`"文件格式错误"`), for every externals instance
and every data buffer alike — the result does not depend on the data, so
no parse or decode of the data is attempted. -/
theorem GetPrivateKeyFromBytes_unsupported_ext (E : Externals)
    (data : List Nat) (ext pw : String)
    (h1 : ext ≠ ".sm2") (h2 : ext ≠ ".pfx") :
    GetPrivateKeyFromBytes E data ext pw = .err .unsupportedFormat := by
  simp [GetPrivateKeyFromBytes, h1, h2]

/-- C9, witness: the unrecognized hint `".xyz"` from the spec's scenario. -/
theorem GetPrivateKeyFromBytes_unsupported_ext_witness :
    GetPrivateKeyFromBytes testExternals [1, 2, 3] ".xyz" "pw" =
      .err .unsupportedFormat :=
  GetPrivateKeyFromBytes_unsupported_ext testExternals [1, 2, 3] ".xyz" "pw"
    (by decide) (by decide)

/-- C10: there is file content that is not valid PEM — here the three bytes
`[1, 2, 3]`, on which `pem.Decode` returns a nil block — for which
`GetPublicKeyFromSM2File` dereferences the unchecked nil block and panics
instead of returning an error result, whatever the externals are. -/
theorem GetPublicKeyFromSM2File_nil_deref_panic (E : Externals) :
    ∃ content : List Nat, pemDecode content = none ∧
      GetPublicKeyFromSM2File E content = .panicked := by
  refine ⟨[1, 2, 3], by decide, ?_⟩
  have h : pemDecode [1, 2, 3] = none := by decide
  simp [GetPublicKeyFromSM2File, h]
